import Mathlib

/-!
Verification development for the BillMap repository.

The Python sources embedded here are:
* `src/scripts/billdata.py` — the offline metadata aggregator
  (`getBillCongressTypeNumber`, `getBillTitles`, `getCosponsors`,
  `updateBillsMeta` / `addToBillsMeta`, `SAVE_ON_COUNT`);
* `src/server_py/flatgov/bills/views.py` — the bill-detail view logic
  (`billIdToBillNumber`, `get_identical_bill_numbers`,
  `get_cosponsors_for_same_bills`, `get_cosponsors_dict`,
  `SIMILARITY_THRESHOLD`, `IDENTICAL_REASONS`).

Python strings are modelled as `List Char`, floats as `ℚ`, dictionaries with
ordered insertion as association lists where a fresh key is appended at the
end and an existing key is overwritten in place (Python 3.7+ dict semantics).
A Python expression that can raise is modelled in `Except PyErr`.
-/

/-- Python strings, modelled as lists of characters. -/
abbrev Str := List Char

/-- Python runtime errors that the embedded code can raise. -/
inductive PyErr where
  | indexError : PyErr
deriving DecidableEq, Repr

/-- Non-lazy `Option` alternative: `oElse a b` is `a` when `a` is `some`,
otherwise `b`. -/
def oElse {α : Type} (a b : Option α) : Option α :=
  match a with
  | some v => some v
  | none => b

/-- Association-list lookup (first match), modelling Python `dict.get(k)`. -/
def alookup {α β : Type} [DecidableEq α] : List (α × β) → α → Option β
  | [], _ => none
  | (k, v) :: t, k' => if k' = k then some v else alookup t k'

/-- Association-list write, modelling Python `d[k] = v`: an existing key is
overwritten in place, a fresh key is appended at the end (insertion order). -/
def setVal {α β : Type} [DecidableEq α] : List (α × β) → α → β → List (α × β)
  | [], k, v => [(k, v)]
  | (k', v') :: t, k, v =>
    if k' = k then (k', v) :: t else (k', v') :: setVal t k v

/-- Python `d.get(k, default)`. -/
def dGet {α β : Type} [DecidableEq α] (m : List (α × β)) (k : α) (d : β) : β :=
  (alookup m k).getD d

/-- Python `s.split(sep)` for a single-character separator: splits the string
at every occurrence of `sep`, keeping empty segments, so the result always has
one more segment than there are occurrences of `sep`. -/
def splitOnChar (sep : Char) : Str → List Str
  | [] => [[]]
  | c :: rest =>
    let r := splitOnChar sep rest
    if c = sep then [] :: r
    else
      match r with
      | [] => [[c]]
      | h :: t => (c :: h) :: t

/-- Python `''.join(parts)`. -/
def joinStrs (parts : List Str) : Str :=
  parts.foldr (· ++ ·) []

/-- `billIdToBillNumber` from `views.py`: converts a `bill_id` of the form
`hr299-116` into `116hr299` by splitting on `-`, reversing the segments and
concatenating them. -/
def billIdToBillNumber (bill_id : Str) : Str :=
  joinStrs (splitOnChar '-' bill_id).reverse

/-- A `titles` entry of a bill-status `data.json` record: `title`, `as` and
`is_for_portion` are read with `dict.get`, so each may be absent
(`is_for_portion` is only ever tested for truthiness, hence a `Bool`). -/
structure Title where
  title : Option Str
  asField : Option Str
  is_for_portion : Bool
deriving DecidableEq, Repr

/-- A `cosponsors` entry of a bill-status `data.json` record; the aggregator
reads the fields `name` and `bioguide_id` with `dict.get`. -/
structure CosRec where
  name : Option Str
  bioguide_id : Option Str
deriving DecidableEq, Repr

/-- A loaded bill-status `data.json` record (`fileDict`/`billDict` in
`billdata.py`): `bill_id` may be absent, `titles` and `cosponsors` are the
record's lists (the claims under verification only exercise records that
carry these two lists). -/
structure BillRecord where
  bill_id : Option Str
  titles : List Title
  cosponsors : List CosRec
deriving DecidableEq, Repr

/-- `BILL_TYPES` from `billdata.py`. -/
def BILL_TYPES : List (Str × Str) :=
  [("ih".toList, "introduced".toList), ("rh".toList, "reported to house".toList)]

/-- `getBillCongressTypeNumber` from `billdata.py`: reads `bill_id`; a falsy
value (absent or empty) yields the `None` sentinel; otherwise the string is
split on `-` and `parts[1] + parts[0]` is returned — when the split produces a
single segment (no hyphen), the index access `bill_id_parts[1]` raises an
`IndexError`. -/
def getBillCongressTypeNumber (fileDict : BillRecord) : Except PyErr (Option Str) :=
  match fileDict.bill_id with
  | none => .ok none
  | some [] => .ok none
  | some s =>
    match splitOnChar '-' s with
    | p0 :: p1 :: _ => .ok (some (p1 ++ p0))
    | _ => .error .indexError

/-- `getBillTitles` from `billdata.py`: drops portion titles when
`include_partial` is false, and when `billType` is a recognized key of
`BILL_TYPES` (and not `'all'`) keeps only titles whose `as` field equals the
type's label. -/
def getBillTitles (fileDict : BillRecord) ( include_partial : Bool) (billType : Str) :
    List Title :=
  let titles := fileDict.titles
  let titles := if ! include_partial then titles.filter (fun t => !t.is_for_portion) else titles
  match alookup BILL_TYPES billType with
  | some label =>
    if billType ≠ "all".toList then titles.filter (fun t => t.asField == some label)
    else titles
  | none => titles

/-- The projection of a cosponsor record onto the fields `name` and
`bioguide_id`, as `getCosponsors(fileDict, includeFields=['name',
'bioguide_id'])` produces in `billdata.py`. -/
structure CosPair where
  name : Option Str
  bioguide_id : Option Str
deriving DecidableEq, Repr

/-- `getCosponsors` from `billdata.py`, at the call the aggregator makes
(`includeFields = ['name', 'bioguide_id']`): projects every cosponsor onto
those two fields. -/
def getCosponsorsNameBioguide (fileDict : BillRecord) : List CosPair :=
  fileDict.cosponsors.map (fun c => { name := c.name, bioguide_id := c.bioguide_id })

/-- A `BillsMeta` entry: the three fields `addToBillsMeta` writes for a key. -/
structure BillEntry where
  titles : List (Option Str)
  titles_whole_bill : List (Option Str)
  cosponsors : List CosPair
deriving DecidableEq, Repr

/-- The `BillsMeta` mapping: a Python dict keyed by `billCongressTypeNumber`. -/
abbrev BillsMeta := List (Str × BillEntry)

/-- The entry `addToBillsMeta` computes for one record: `titles` from
`getBillTitles(billDict)` (defaults: all titles), `titles_whole_bill` the
titles whose `is_for_portion` is falsy, and `cosponsors` the name/bioguide
projection. -/
def billEntryOf (billDict : BillRecord) : BillEntry :=
  let titles := getBillTitles billDict true "all".toList
  { titles := titles.map (fun t => t.title)
    titles_whole_bill := (titles.filter (fun t => !t.is_for_portion)).map (fun t => t.title)
    cosponsors := getCosponsorsNameBioguide billDict }

/-- `SAVE_ON_COUNT` from `billdata.py`. -/
def SAVE_ON_COUNT : Nat := 1000

/-- `addToBillsMeta` (the inner function of `updateBillsMeta`) applied to one
loaded record: a falsy `billCongressTypeNumber` (the `None` sentinel or the
empty string) skips the record; otherwise the entry for the key is written
(fresh keys are appended, existing keys overwritten in place) and a checkpoint
save fires exactly when the new key count is a multiple of `SAVE_ON_COUNT`.
The returned `Bool` records whether this record checkpointed. -/
def addToBillsMeta (billsMeta : BillsMeta) (billDict : BillRecord) :
    Except PyErr (BillsMeta × Bool) :=
  match getBillCongressTypeNumber billDict with
  | .error e => .error e
  | .ok bctn =>
    match bctn with
    | none => .ok (billsMeta, false)
    | some k =>
      if k = [] then .ok (billsMeta, false)
      else
        let m' := setVal billsMeta k (billEntryOf billDict)
        .ok (m', decide (m'.length % SAVE_ON_COUNT = 0))

/-- The aggregation run of `updateBillsMeta` over the sequence of records the
directory walk yields, tracking only the `BillsMeta` mapping; an uncaught
exception from `addToBillsMeta` aborts the run. -/
def runBills (billsMeta : BillsMeta) : List BillRecord → Except PyErr BillsMeta
  | [] => .ok billsMeta
  | r :: t =>
    match addToBillsMeta billsMeta r with
    | .error e => .error e
    | .ok (m', _) => runBills m' t

/-- The aggregation run of `updateBillsMeta`, additionally tracking the
per-record checkpoint flags in order. -/
def runBillsTrace (billsMeta : BillsMeta) :
    List BillRecord → Except PyErr (BillsMeta × List Bool)
  | [] => .ok (billsMeta, [])
  | r :: t =>
    match addToBillsMeta billsMeta r with
    | .error e => .error e
    | .ok (m', b) =>
      match runBillsTrace m' t with
      | .error e => .error e
      | .ok (mf, bs) => .ok (mf, b :: bs)

/-- `updateBillsMeta` from `billdata.py`, viewed over the record sequence the
walk produces, starting (as the call `updateBillsMeta()` does) from an empty
mapping. -/
def updateBillsMeta (records : List BillRecord) : Except PyErr BillsMeta :=
  runBills [] records

/-- The key a record resolves to, when it resolves without error to a truthy
(non-empty) key — the condition under which `addToBillsMeta` writes an entry. -/
def resolvedKey (r : BillRecord) : Option Str :=
  match getBillCongressTypeNumber r with
  | .ok (some s) => if s = [] then none else some s
  | _ => none

/-- The entry the last record of a list resolving to key `k` would write;
`none` when no record of the list resolves to `k`. -/
def lastEntry (l : List BillRecord) (k : Str) : Option BillEntry :=
  match l with
  | [] => none
  | r :: t =>
    oElse (lastEntry t k)
      (if resolvedKey r = some k then some (billEntryOf r) else none)

/-- A record with the given `bill_id` and no titles or cosponsors, used for
concrete runs of the aggregator. -/
def recOfBillId (bill_id : Str) : BillRecord :=
  { bill_id := some bill_id, titles := [], cosponsors := [] }

/-- The character with code `65 + i % 1000` (`'A'`, `'B'`, …): a supply of
1000 pairwise distinct characters used to build concrete record sequences. -/
def keyChar (i : Nat) : Char :=
  Char.ofNatAux (65 + i % 1000) (Or.inl (by omega))

/-- A concrete record sequence for the aggregator: 1000 records with the
pairwise distinct bill ids `['-', keyChar i]` (so 1000 distinct resolved
single-character keys), followed by a duplicate of the first record. -/
def saveCountRecs : List BillRecord :=
  (List.range 1000).map (fun i => recOfBillId ['-', keyChar i]) ++
    [recOfBillId ['-', keyChar 0]]

/-! Definitions for `views.py`. -/

/-- `SIMILARITY_THRESHOLD` from `views.py`: the fraction difference in score
that will still be considered identical. -/
def SIMILARITY_THRESHOLD : ℚ := 1 / 10

/-- `IDENTICAL_REASONS` from `views.py`. -/
def IDENTICAL_REASONS : List Str :=
  ["identical".toList, "nearly identical".toList, "title match (main)".toList]

/-- Modelled from the spec: `cleanReasons` is imported from `bills.models`,
which is not among the sources. The spec's data model describes a match's
`reason` as a comma-joined sequence of reason strings and the resolver as
intersecting "its reason set" with the fixed vocabulary, so the cleaning step
is modelled as the identity on the comma-split sequence. -/
def cleanReasons (reasons : List Str) : List Str := reasons

/-- A similarity match as consumed by `get_identical_bill_numbers`:
`bill_congress_type_number` is read with `dict.get(…, '')` so it may be
absent; `reason` is the comma-split sequence of reason strings (the code
splits the stored comma-joined string on `", "`). -/
structure SimMatch where
  bill_congress_type_number : Option Str
  score : ℚ
  reason : List Str
deriving DecidableEq, Repr

/-- The per-match condition of the comprehension in
`get_identical_bill_numbers`: some identical reason occurs among the match's
cleaned reasons, or the current score is positive and the match's score is
within `SIMILARITY_THRESHOLD` relative distance of it. -/
def isIdenticalMatch (current_bill_score : ℚ) (bill : SimMatch) : Bool :=
  IDENTICAL_REASONS.any (fun x => decide (x ∈ cleanReasons bill.reason)) ||
    (decide (0 < current_bill_score) &&
      decide (|bill.score - current_bill_score| / current_bill_score < SIMILARITY_THRESHOLD))

/-- `get_identical_bill_numbers` from `views.py`, parametrized by the external
collaborator `sort_bills_for_congress` (imported from `bills.utils`, not among
the sources; it reorders the list in place): the matches satisfying
`isIdenticalMatch` are mapped to their bill numbers, falsy (empty or missing)
bill numbers are dropped, and the sorter is applied to the result. -/
def get_identical_bill_numbers (sort_bills : List Str → List Str)
    (similar_bills : List SimMatch) (current_bill_score : ℚ) : List Str :=
  sort_bills
    (((similar_bills.filter (isIdenticalMatch current_bill_score)).map
        (fun bill => bill.bill_congress_type_number.getD [])).filter
      (fun billnumber => billnumber ≠ []))

/-- Division on ℚ made partial, to witness that no division by zero is ever
evaluated: `none` exactly when the denominator is zero. -/
def safeDiv (a b : ℚ) : Option ℚ :=
  if b = 0 then none else some (a / b)

/-- `isIdenticalMatch` with Python's short-circuit evaluation order made
explicit and the division made partial: the reason test is evaluated first;
only when it fails and `current_bill_score > 0` holds is the score-proximity
division evaluated. -/
def isIdenticalMatchSafe (current_bill_score : ℚ) (bill : SimMatch) : Option Bool :=
  if IDENTICAL_REASONS.any (fun x => decide (x ∈ cleanReasons bill.reason)) then some true
  else if 0 < current_bill_score then
    (safeDiv |bill.score - current_bill_score| current_bill_score).map
      (fun q => decide (q < SIMILARITY_THRESHOLD))
  else some false

/-- Effectful filter over `Option`, evaluating the predicate left to right as
the Python comprehension does. -/
def filterMO {α : Type} (p : α → Option Bool) : List α → Option (List α)
  | [] => some []
  | x :: t =>
    match p x with
    | none => none
    | some b => (filterMO p t).map (fun r => if b then x :: r else r)

/-- `get_identical_bill_numbers` with the partial-division semantics:
`none` would signal an evaluated division by zero. -/
def get_identical_bill_numbers_safe (sort_bills : List Str → List Str)
    (similar_bills : List SimMatch) (current_bill_score : ℚ) : Option (List Str) :=
  (filterMO (isIdenticalMatchSafe current_bill_score) similar_bills).map
    (fun kept =>
      sort_bills
        ((kept.map (fun bill => bill.bill_congress_type_number.getD [])).filter
          (fun billnumber => billnumber ≠ [])))

/-- The spec's example similarity matches: `116hr300` with score `0.95` and
reason `identical`, and `116hr301` with score `0.50` and reason
`similar text`. -/
def exampleMatches : List SimMatch :=
  [{ bill_congress_type_number := some "116hr300".toList, score := 95 / 100,
     reason := ["identical".toList] },
   { bill_congress_type_number := some "116hr301".toList, score := 50 / 100,
     reason := ["similar text".toList] }]

/-- The claim's characterization of an identical match, written from the
claim's words for comparison with the code: the bill key is non-empty, and the
comma-split reason list intersects the fixed vocabulary or, when the current
score is positive, the relative score distance is below a tenth. -/
def identicalSpecPred (current_bill_score : ℚ) (bill : SimMatch) : Prop :=
  bill.bill_congress_type_number.getD [] ≠ [] ∧
    (bill.reason.inter IDENTICAL_REASONS ≠ [] ∨
      (0 < current_bill_score ∧
        |bill.score - current_bill_score| / current_bill_score < SIMILARITY_THRESHOLD))

instance (cs : ℚ) (b : SimMatch) : Decidable (identicalSpecPred cs b) := by
  unfold identicalSpecPred; infer_instance

/-! Definitions for `get_cosponsors_for_same_bills` (`views.py`). -/

/-- An entry of a cosponsor's `committees` list: `committee` and `rank` are
read with `dict.get`, so each may be absent. -/
structure CommitteeItem where
  committee : Option Str
  rank : Option Int
deriving DecidableEq, Repr

/-- A row of the `Cosponsor` queryset fetch in
`get_cosponsors_for_same_bills`, projected onto the fixed field list
`("bioguide_id", "name_full_official", "party", "state", "leadership",
"committees", "bill")`; `bill` is the database id of the cosponsored bill. -/
structure CosRow where
  bioguide_id : Str
  name_full_official : Str
  party : Str
  state : Str
  leadership : Str
  committees : List CommitteeItem
  bill : Nat
deriving DecidableEq, Repr

/-- A merged entry of `cosponsors_deduped`: the fetched row together with the
three fields the loop adds to it. -/
structure MergedCosponsor where
  row : CosRow
  bill_congress_type_numbers : List Str
  committees_named : List (Option Str)
  ranks : List (Option Int)
deriving DecidableEq, Repr

/-- The bill number attached to a row: `bill_dict.get(cosponsor.get('bill',
''), '')`, where `bill_dict` maps fetched bill database ids to bill numbers. -/
def bctnOf (bill_dict : List (Nat × Str)) (row : CosRow) : Str :=
  dGet bill_dict row.bill []

/-- `committees_relevant` for a row: its committee items whose `committee` id
is a key of the committees map. -/
def committeesRelevantOf (committees_map : List (Option Str × Option Str))
    (row : CosRow) : List CommitteeItem :=
  row.committees.filter (fun item => (alookup committees_map item.committee).isSome)

/-- `committees_named` for a first-seen row: the map's names of its relevant
committee items (`committees_map.get(…, '')`). -/
def committeesNamedOf (committees_map : List (Option Str × Option Str))
    (row : CosRow) : List (Option Str) :=
  (committeesRelevantOf committees_map row).map
    (fun item => dGet committees_map item.committee (some []))

/-- `ranks` for a first-seen row: the ranks of its relevant committee items. -/
def ranksOf (committees_map : List (Option Str × Option Str))
    (row : CosRow) : List (Option Int) :=
  (committeesRelevantOf committees_map row).map (fun item => item.rank)

/-- The merged entry created at the first occurrence of a `bioguide_id`:
`bill_congress_type_numbers` starts with this row's bill number, and
`committees_named` / `ranks` come from this row's relevant committees. -/
def mkMerged (committees_map : List (Option Str × Option Str))
    (bill_dict : List (Nat × Str)) (row : CosRow) : MergedCosponsor :=
  { row := row
    bill_congress_type_numbers := [bctnOf bill_dict row]
    committees_named := committeesNamedOf committees_map row
    ranks := ranksOf committees_map row }

/-- One iteration of the dedup loop of `get_cosponsors_for_same_bills`: a
known `bioguide_id` appends this row's bill number to the existing entry, a
fresh one inserts a new merged entry. -/
def mergeStep (committees_map : List (Option Str × Option Str))
    (bill_dict : List (Nat × Str)) (deduped : List (Str × MergedCosponsor))
    (row : CosRow) : List (Str × MergedCosponsor) :=
  match alookup deduped row.bioguide_id with
  | some m =>
    setVal deduped row.bioguide_id
      { m with bill_congress_type_numbers :=
          m.bill_congress_type_numbers ++ [bctnOf bill_dict row] }
  | none => deduped ++ [(row.bioguide_id, mkMerged committees_map bill_dict row)]

/-- The dedup loop of `get_cosponsors_for_same_bills` over the fetched rows,
followed by `list(cosponsors_deduped.values())`. -/
def get_cosponsors_for_same_bills (committees_map : List (Option Str × Option Str))
    (bill_dict : List (Nat × Str)) (rows : List CosRow) : List MergedCosponsor :=
  (rows.foldl (mergeStep committees_map bill_dict) []).map Prod.snd

/-! Definitions for `get_cosponsors_dict` (`views.py`). -/

/-- A cosponsor entry of `cosponsors_dict` as `get_cosponsors_dict` uses it:
`name` is the sort and match key, `rank` models an integer `rank` value
(`none` when `rank` is absent or not an integer), `original_cosponsor` and the
`sponsor` marker are truthiness flags. -/
structure CoEntry where
  name : Str
  rank : Option Int
  original_cosponsor : Bool
  sponsor : Bool
deriving DecidableEq, Repr

/-- Lexicographic comparison of Python strings by code point. -/
def strLe : Str → Str → Bool
  | [], _ => true
  | _ :: _, [] => false
  | a :: as_, b :: bs => if a = b then strLe as_ bs else decide (a < b)

/-- Stable insertion into an ascending list: the new element goes after every
element that is `le` it, as Python's stable `sorted` orders equal keys. -/
def insertSorted {α : Type} (le : α → α → Bool) (x : α) : List α → List α
  | [] => [x]
  | y :: t => if le y x then y :: insertSorted le x t else x :: y :: t

/-- Stable ascending sort, modelling Python's `sorted`. -/
def stableSortBy {α : Type} (le : α → α → Bool) (l : List α) : List α :=
  l.foldl (fun acc x => insertSorted le x acc) []

/-- Comparison of cosponsor entries by name, the key of the first `sorted`
call in `get_cosponsors_dict`. -/
def nameLe (a b : CoEntry) : Bool := strLe a.name b.name

/-- Comparison of cosponsor entries by integer rank, the key of the two
ranked `sorted` calls in `get_cosponsors_dict`. -/
def rankLe (a b : CoEntry) : Bool := decide (a.rank.getD 0 ≤ b.rank.getD 0)

/-- The first phase of `get_cosponsors_dict` (`views.py`): sort the
cosponsors by name; mark the sponsor with `sponsor = True`; when the
sponsor's name is truthy, move the first cosponsor bearing it to the front
(`remove` then `insert(0, …)`), or insert the sponsor at the front when none
does; with a falsy sponsor name the sorted list is left as is. -/
def sponsorAdjusted (cosponsors_dict : List CoEntry) (sponsor0 : CoEntry) :
    List CoEntry :=
  let cosponsors := stableSortBy nameLe cosponsors_dict
  let sponsor : CoEntry := { sponsor0 with sponsor := true }
  if sponsor.name ≠ [] then
    match cosponsors.filter (fun c => c.name == sponsor.name) with
    | [] => sponsor :: cosponsors
    | s :: _ => s :: cosponsors.erase s
  else cosponsors

/-- The final phase of `get_cosponsors_dict` (`views.py`), applied to the
already-enriched list: keep the head (`cosponsors[:1]`) and partition the
tail (`cosponsors[1:]`) into original/unoriginal × ranked/unranked, sorting
each ranked part ascending by rank. -/
def partitionTail (cosponsors : List CoEntry) : List CoEntry :=
  let tail := cosponsors.drop 1
  let original_cosponsors := tail.filter (fun c => c.original_cosponsor)
  let unoriginal_cosponsors := tail.filter (fun c => !c.original_cosponsor)
  let sorted_original_ranked :=
    stableSortBy rankLe (original_cosponsors.filter (fun c => c.rank.isSome))
  let original_unranked := original_cosponsors.filter (fun c => c.rank.isNone)
  let sorted_unoriginal_ranked :=
    stableSortBy rankLe (unoriginal_cosponsors.filter (fun c => c.rank.isSome))
  let unoriginal_unranked := unoriginal_cosponsors.filter (fun c => c.rank.isNone)
  cosponsors.take 1 ++ sorted_original_ranked ++ original_unranked ++
    sorted_unoriginal_ranked ++ unoriginal_unranked

/-- `get_cosponsors_dict` from `views.py`, parametrized by the per-cosponsor
enrichment `enrich` (the loop body that queries the `Cosponsor` table and
mutates each entry's fields in place — an external collaborator that never
reorders the list): adjust for the sponsor, enrich every entry in place, then
keep the head and partition the tail. -/
def get_cosponsors_dict (cosponsors_dict : List CoEntry) (sponsor0 : CoEntry)
    (enrich : CoEntry → CoEntry) : List CoEntry :=
  partitionTail ((sponsorAdjusted cosponsors_dict sponsor0).map enrich)

/-- A concrete fetched cosponsor row for bioguide `X` on bill id 1. -/
def rowA : CosRow :=
  { bioguide_id := "X".toList, name_full_official := "Alice Acker".toList,
    party := "D".toList, state := "CA".toList, leadership := "".toList,
    committees := [{ committee := some "HSAG".toList, rank := some 3 }], bill := 1 }

/-- A concrete fetched cosponsor row for bioguide `Y` on bill id 1. -/
def rowC : CosRow :=
  { bioguide_id := "Y".toList, name_full_official := "Carol Cole".toList,
    party := "R".toList, state := "TX".toList, leadership := "".toList,
    committees := [], bill := 1 }

/-- A second fetched row for bioguide `X` (on bill id 2) with different
payload fields, to exercise the first-row-wins merge. -/
def rowB : CosRow :=
  { bioguide_id := "X".toList, name_full_official := "Alice B. Acker".toList,
    party := "I".toList, state := "NV".toList, leadership := "whip".toList,
    committees := [{ committee := some "HSBU".toList, rank := some 7 }], bill := 2 }

/-- A concrete fetched-row sequence: `X` appears twice (bills 1 and 2) with
different payloads, `Y` once. -/
def exampleRows : List CosRow := [rowA, rowC, rowB]

/-- A concrete `bill_dict` resolving the two fetched bill ids. -/
def exampleBillDict : List (Nat × Str) :=
  [(1, "116hr100".toList), (2, "116hr200".toList)]

/-- A concrete sponsor entry named `a`. -/
def spA : CoEntry :=
  { name := "a".toList, rank := none, original_cosponsor := false, sponsor := false }

/-- A concrete cosponsor entry named `z`. -/
def zEntry : CoEntry :=
  { name := "z".toList, rank := none, original_cosponsor := false, sponsor := false }

/-- A concrete sponsor entry with an empty (falsy) name and a rank. -/
def spEmptyName : CoEntry :=
  { name := [], rank := some 1, original_cosponsor := false, sponsor := false }

/-! Generic lemmas about the embedding's building blocks. -/

theorem oElse_some {α : Type} (v : α) (b : Option α) : oElse (some v) b = some v := rfl

theorem oElse_none {α : Type} (b : Option α) : oElse none b = b := rfl

theorem oElse_self_absorb {α : Type} (a b : Option α) :
    oElse a (oElse a b) = oElse a b := by
  cases a <;> rfl

theorem alookup_setVal {α β : Type} [DecidableEq α] (m : List (α × β)) (k k' : α) (v : β) :
    alookup (setVal m k v) k' = if k' = k then some v else alookup m k' := by
  induction m with
  | nil => simp [setVal, alookup]
  | cons p t ih =>
    obtain ⟨pk, pv⟩ := p
    by_cases hpk : pk = k
    · subst hpk
      simp only [setVal, if_pos rfl, alookup]
      by_cases h' : k' = pk <;> simp [h']
    · simp only [setVal, if_neg hpk, alookup]
      by_cases h' : k' = pk
      · subst h'
        simp [if_neg, hpk]
      · simp [h', ih]

theorem setVal_length_of_none {α β : Type} [DecidableEq α] (m : List (α × β)) (k : α) (v : β)
    (h : alookup m k = none) : (setVal m k v).length = m.length + 1 := by
  induction m with
  | nil => simp [setVal]
  | cons p t ih =>
    obtain ⟨pk, pv⟩ := p
    simp only [alookup] at h
    by_cases hpk : k = pk
    · simp [hpk] at h
    · have hpk' : pk ≠ k := fun hh => hpk hh.symm
      simp only [setVal, if_neg hpk', List.length_cons]
      rw [ih]
      · simpa [hpk] using h

theorem setVal_length_of_some {α β : Type} [DecidableEq α] (m : List (α × β)) (k : α) (v : β)
    (h : (alookup m k).isSome) : (setVal m k v).length = m.length := by
  induction m with
  | nil => simp [alookup] at h
  | cons p t ih =>
    obtain ⟨pk, pv⟩ := p
    by_cases hpk : pk = k
    · simp [setVal, hpk]
    · have hk : k ≠ pk := fun hh => hpk hh.symm
      simp only [alookup, if_neg hk] at h
      simp [setVal, hpk, ih h]

theorem splitOnChar_of_not_mem (sep : Char) (s : Str) (h : sep ∉ s) :
    splitOnChar sep s = [s] := by
  induction s with
  | nil => rfl
  | cons c rest ih =>
    have hc : c ≠ sep := fun hc => h (hc ▸ List.mem_cons_self c rest)
    have hr : sep ∉ rest := fun hm => h (List.mem_cons_of_mem c hm)
    simp [splitOnChar, if_neg hc, ih hr]

theorem splitOnChar_append (sep : Char) (t c : Str) (h : sep ∉ t) :
    splitOnChar sep (t ++ sep :: c) = t :: splitOnChar sep c := by
  induction t with
  | nil => simp [splitOnChar]
  | cons x xs ih =>
    have hx : x ≠ sep := fun hx => h (hx ▸ List.mem_cons_self x xs)
    have hxs : sep ∉ xs := fun hm => h (List.mem_cons_of_mem x hm)
    have hne : splitOnChar sep (xs ++ sep :: c) = xs :: splitOnChar sep c := ih hxs
    simp only [List.cons_append, splitOnChar, if_neg hx]
    rw [List.append_eq, hne]

theorem splitOnChar_ne_nil (sep : Char) (s : Str) : splitOnChar sep s ≠ [] := by
  cases s with
  | nil => simp [splitOnChar]
  | cons c rest =>
    simp only [splitOnChar]
    by_cases hc : c = sep
    · simp [hc]
    · simp only [if_neg hc]
      cases hr : splitOnChar sep rest <;> simp

theorem length_splitOnChar (sep : Char) (s : Str) :
    (splitOnChar sep s).length = s.count sep + 1 := by
  induction s with
  | nil => simp [splitOnChar]
  | cons c rest ih =>
    by_cases hc : c = sep
    · subst hc
      simp [splitOnChar, List.count_cons, ih]
    · have hcount : (c :: rest).count sep = rest.count sep := by
        simp [List.count_cons, hc]
      simp only [splitOnChar, if_neg hc, hcount]
      cases hr : splitOnChar sep rest with
      | nil => exact absurd hr (splitOnChar_ne_nil sep rest)
      | cons h' t' =>
        have : (h' :: t').length = rest.count sep + 1 := hr ▸ ih
        simpa using this

/-! Claims about the bill-key normalizers. -/

/-- C4: for every well-formed `bill_id` `<type><number>-<congress>` — one
hyphen separating two non-empty hyphen-free segments — both normalizers
(`billIdToBillNumber` and `getBillCongressTypeNumber`) return
`<congress><type><number>`. -/
theorem claim4_normalizer (r : BillRecord) (t c : Str) (ht : t ≠ []) (hc : c ≠ [])
    (hyt : '-' ∉ t) (hyc : '-' ∉ c) (hr : r.bill_id = some (t ++ '-' :: c)) :
    billIdToBillNumber (t ++ '-' :: c) = c ++ t ∧
    getBillCongressTypeNumber r = .ok (some (c ++ t)) := by
  have hsplit : splitOnChar '-' (t ++ '-' :: c) = [t, c] := by
    rw [splitOnChar_append '-' t c hyt, splitOnChar_of_not_mem '-' c hyc]
  constructor
  · simp [billIdToBillNumber, hsplit, joinStrs]
  · obtain ⟨x, xs, rfl⟩ := List.exists_cons_of_ne_nil ht
    rw [List.cons_append] at hsplit
    simp only [getBillCongressTypeNumber, hr, List.cons_append, hsplit]

/-- Witness for C4 at the spec's example `hr299-116`. -/
theorem claim4_normalizer_witness :
    billIdToBillNumber ("hr299".toList ++ '-' :: "116".toList) =
      "116".toList ++ "hr299".toList ∧
    getBillCongressTypeNumber (recOfBillId ("hr299".toList ++ '-' :: "116".toList)) =
      .ok (some ("116".toList ++ "hr299".toList)) :=
  claim4_normalizer _ _ _ (by decide) (by decide) (by decide) (by decide) rfl

/-- C9: on every `bill_id` containing exactly one hyphen the two normalizers
agree, while on the two-hyphen input `a-b-c` they differ:
`getBillCongressTypeNumber` yields `ba` and `billIdToBillNumber` yields
`cba`. -/
theorem claim9_normalizers_agree :
    (∀ (r : BillRecord) (s : Str), r.bill_id = some s → s.count '-' = 1 →
      getBillCongressTypeNumber r = .ok (some (billIdToBillNumber s))) ∧
    getBillCongressTypeNumber (recOfBillId "a-b-c".toList) = .ok (some "ba".toList) ∧
    billIdToBillNumber "a-b-c".toList = "cba".toList ∧
    "a-b-c".toList.count '-' = 2 := by
  refine ⟨?_, rfl, rfl, rfl⟩
  intro r s hr hcount
  have hlen : (splitOnChar '-' s).length = 2 := by
    rw [length_splitOnChar, hcount]
  obtain ⟨a, b, hsp⟩ : ∃ a b, splitOnChar '-' s = [a, b] := by
    cases hsp : splitOnChar '-' s with
    | nil => exact absurd hsp (splitOnChar_ne_nil '-' s)
    | cons a rest =>
      cases rest with
      | nil => rw [hsp] at hlen; simp at hlen
      | cons b rest2 =>
        cases rest2 with
        | nil => exact ⟨a, b, rfl⟩
        | cons d rest3 => rw [hsp] at hlen; simp at hlen
  have hbid : billIdToBillNumber s = b ++ a := by
    simp [billIdToBillNumber, hsp, joinStrs]
  cases s with
  | nil =>
    rw [show splitOnChar '-' ([] : Str) = [[]] from rfl] at hsp
    simp at hsp
  | cons x xs =>
    simp only [getBillCongressTypeNumber, hr, hsp, hbid]

/-- Witness for C9 at the one-hyphen input `hr299-116`. -/
theorem claim9_normalizers_agree_witness :
    getBillCongressTypeNumber (recOfBillId "hr299-116".toList) =
      .ok (some (billIdToBillNumber "hr299-116".toList)) ∧
    "hr299-116".toList.count '-' = 1 :=
  ⟨claim9_normalizers_agree.1 _ _ rfl (by decide), by decide⟩

/-- C5 (amended): a missing or empty (falsy) `bill_id` makes the normalizer
return the `None` sentinel and the aggregator skip the record — the mapping is
unchanged and aggregation continues with the remaining records. (The original
claim extended this to every malformed `bill_id`; the counterexample shows a
hyphen-less `bill_id` instead raises an uncaught `IndexError`.) -/
theorem claim5_missing_bill_id_skipped (m : BillsMeta) (r : BillRecord)
    (rest : List BillRecord) (h : r.bill_id = none ∨ r.bill_id = some []) :
    getBillCongressTypeNumber r = .ok none ∧
    addToBillsMeta m r = .ok (m, false) ∧
    runBills m (r :: rest) = runBills m rest := by
  have hk : getBillCongressTypeNumber r = .ok none := by
    rcases h with h | h <;> simp [getBillCongressTypeNumber, h]
  refine ⟨hk, ?_, ?_⟩
  · simp [addToBillsMeta, hk]
  · simp [runBills, addToBillsMeta, hk]

/-- Witness for C5 at a record with no `bill_id`. -/
theorem claim5_missing_bill_id_skipped_witness :
    getBillCongressTypeNumber { bill_id := none, titles := [], cosponsors := [] } =
      .ok none ∧
    addToBillsMeta [] { bill_id := none, titles := [], cosponsors := [] } = .ok ([], false) ∧
    runBills [] [{ bill_id := none, titles := [], cosponsors := [] }] = runBills [] [] :=
  claim5_missing_bill_id_skipped [] _ [] (Or.inl rfl)

/-- Counterexample to C5 as stated: the malformed (hyphen-less) `bill_id`
`hr299` is present and truthy, so the normalizer reaches `bill_id_parts[1]`
on a one-element split and raises `IndexError` instead of returning the null
sentinel; the aggregation run aborts with the exception rather than skipping
the record. -/
theorem claim5_counterexample :
    getBillCongressTypeNumber (recOfBillId "hr299".toList) = .error .indexError ∧
    runBills [] [recOfBillId "hr299".toList] = .error .indexError := by
  exact ⟨rfl, rfl⟩

/-! Lemmas about aggregation runs, leading to C7 (idempotence) and C6. -/

theorem runBills_append (m : BillsMeta) (l₁ l₂ : List BillRecord) :
    runBills m (l₁ ++ l₂) =
      match runBills m l₁ with
      | .error e => .error e
      | .ok m₁ => runBills m₁ l₂ := by
  induction l₁ generalizing m with
  | nil => simp [runBills]
  | cons r t ih =>
    simp only [List.cons_append, runBills]
    cases addToBillsMeta m r with
    | error e => rfl
    | ok p => exact ih p.1

theorem oElse_assoc {α : Type} (a b c : Option α) :
    oElse (oElse a b) c = oElse a (oElse b c) := by
  cases a <;> rfl

/-- The effect of one aggregation step, written as a function of the record's
normalization result and resolved key. -/
theorem addToBillsMeta_eq (m : BillsMeta) (r : BillRecord) :
    addToBillsMeta m r =
      match getBillCongressTypeNumber r, resolvedKey r with
      | .error e, _ => .error e
      | .ok _, none => .ok (m, false)
      | .ok _, some k =>
        .ok (setVal m k (billEntryOf r),
          decide ((setVal m k (billEntryOf r)).length % SAVE_ON_COUNT = 0)) := by
  unfold addToBillsMeta resolvedKey
  cases hg : getBillCongressTypeNumber r with
  | error e => rfl
  | ok bctn =>
    cases bctn with
    | none => rfl
    | some k =>
      by_cases hk : k = []
      · subst hk
        simp
      · simp [hk]

/-- Success of an aggregation run depends only on the records, never on the
starting mapping. -/
theorem runBills_ok_independent (l : List BillRecord) (m m' : BillsMeta) (m₁ : BillsMeta)
    (h : runBills m l = .ok m₁) : ∃ m₂, runBills m' l = .ok m₂ := by
  induction l generalizing m m' with
  | nil => exact ⟨m', rfl⟩
  | cons r t ih =>
    simp only [runBills, addToBillsMeta_eq] at h ⊢
    cases hg : getBillCongressTypeNumber r with
    | error e => rw [hg] at h; exact absurd h (by simp)
    | ok bctn =>
      rw [hg] at h
      cases hk : resolvedKey r with
      | none => rw [hk] at h; exact ih _ _ h
      | some k => rw [hk] at h; exact ih _ _ h

/-- Lookup characterization of a successful aggregation run: a key maps to
the entry of the last record that resolves to it, or keeps its prior value. -/
theorem runBills_alookup (l : List BillRecord) (m m₁ : BillsMeta) (k : Str)
    (h : runBills m l = .ok m₁) :
    alookup m₁ k = oElse (lastEntry l k) (alookup m k) := by
  induction l generalizing m with
  | nil =>
    simp only [runBills] at h
    cases h
    rfl
  | cons r t ih =>
    simp only [runBills, addToBillsMeta_eq] at h
    cases hg : getBillCongressTypeNumber r with
    | error e => rw [hg] at h; exact absurd h (by simp)
    | ok bctn =>
      rw [hg] at h
      cases hk : resolvedKey r with
      | none =>
        rw [hk] at h
        rw [ih _ h, lastEntry, hk, oElse_assoc]
        simp [oElse_none]
      | some k' =>
        rw [hk] at h
        rw [ih _ h, lastEntry, hk, alookup_setVal, oElse_assoc]
        by_cases hkk : k = k'
        · subst hkk
          simp only [if_pos rfl]
          rfl
        · have hne : ¬(some k' = some k) := fun hh => hkk (Option.some.inj hh).symm
          simp only [if_neg hkk, if_neg hne]
          rfl

/-- C7: aggregation is idempotent over an unchanged corpus — running
`updateBillsMeta` over the record sequence twice produces a `BillsMeta`
mapping equal key for key and value for value to the single run (and the runs
fail identically when a record raises). -/
theorem claim7_idempotent (l : List BillRecord) (k : Str) :
    (updateBillsMeta (l ++ l)).map (fun m => alookup m k) =
      (updateBillsMeta l).map (fun m => alookup m k) := by
  unfold updateBillsMeta
  rw [runBills_append]
  cases h : runBills [] l with
  | error e => rfl
  | ok m₁ =>
    obtain ⟨m₂, h₂⟩ := runBills_ok_independent l [] m₁ m₁ h
    have hred : (match (Except.ok m₁ : Except PyErr BillsMeta) with
        | .error e => .error e
        | .ok m₁ => runBills m₁ l) = runBills m₁ l := rfl
    rw [hred, h₂]
    simp only [Except.map]
    have c1 := runBills_alookup l [] m₁ k h
    have c2 := runBills_alookup l m₁ m₂ k h₂
    rw [c2, c1, oElse_self_absorb]

/-! The checkpoint rule (C6). -/

/-- A record with a resolved (truthy) key makes the step write the key's entry
and checkpoint exactly when the resulting key count is a multiple of
`SAVE_ON_COUNT`. -/
theorem addToBillsMeta_write (m : BillsMeta) (r : BillRecord) (k : Str)
    (hk : resolvedKey r = some k) :
    addToBillsMeta m r =
      .ok (setVal m k (billEntryOf r),
        decide ((setVal m k (billEntryOf r)).length % SAVE_ON_COUNT = 0)) := by
  unfold resolvedKey at hk
  unfold addToBillsMeta
  cases hg : getBillCongressTypeNumber r with
  | error e => rw [hg] at hk; simp at hk
  | ok bctn =>
    rw [hg] at hk
    cases bctn with
    | none => simp at hk
    | some s =>
      by_cases hs : s = []
      · subst hs; simp at hk
      · simp only [if_neg hs] at hk
        cases hk
        simp [hs]

/-- C6 (amended): a record with no resolvable (truthy) key is skipped — it
neither changes the mapping nor checkpoints; a record inserting a fresh key
raises the key count by one and checkpoints exactly when the new count is a
multiple of `SAVE_ON_COUNT`; but a record whose key already exists leaves the
count unchanged and still checkpoints whenever the (unchanged) count is a
multiple of `SAVE_ON_COUNT` — so a checkpoint is not equivalent to inserting
the `SAVE_ON_COUNT`-th fresh key. -/
theorem claim6_checkpoint_rule (m : BillsMeta) (r : BillRecord) :
    (∀ bctn, getBillCongressTypeNumber r = .ok bctn → resolvedKey r = none →
      addToBillsMeta m r = .ok (m, false)) ∧
    (∀ k, resolvedKey r = some k → alookup m k = none →
      addToBillsMeta m r =
        .ok (setVal m k (billEntryOf r), decide ((m.length + 1) % SAVE_ON_COUNT = 0)) ∧
      (setVal m k (billEntryOf r)).length = m.length + 1) ∧
    (∀ k, resolvedKey r = some k → (alookup m k).isSome →
      addToBillsMeta m r =
        .ok (setVal m k (billEntryOf r), decide (m.length % SAVE_ON_COUNT = 0)) ∧
      (setVal m k (billEntryOf r)).length = m.length) := by
  refine ⟨?_, ?_, ?_⟩
  · intro bctn hg hk
    rw [addToBillsMeta_eq, hg, hk]
  · intro k hk hnone
    have hlen := setVal_length_of_none m k (billEntryOf r) hnone
    refine ⟨?_, hlen⟩
    rw [addToBillsMeta_write m r k hk, hlen]
  · intro k hk hsome
    have hlen := setVal_length_of_some m k (billEntryOf r) hsome
    refine ⟨?_, hlen⟩
    rw [addToBillsMeta_write m r k hk, hlen]

/-- Witness for C6 at a fresh one-key insert on the empty mapping. -/
theorem claim6_checkpoint_rule_witness :
    addToBillsMeta [] (recOfBillId ['-', 'A']) =
      .ok (setVal [] ['A'] (billEntryOf (recOfBillId ['-', 'A'])),
        decide ((List.length ([] : BillsMeta) + 1) % SAVE_ON_COUNT = 0)) ∧
    (setVal ([] : BillsMeta) ['A'] (billEntryOf (recOfBillId ['-', 'A']))).length =
      List.length ([] : BillsMeta) + 1 :=
  (claim6_checkpoint_rule [] (recOfBillId ['-', 'A'])).2.1 ['A'] rfl rfl

theorem runBillsTrace_append (m : BillsMeta) (l₁ l₂ : List BillRecord) :
    runBillsTrace m (l₁ ++ l₂) =
      match runBillsTrace m l₁ with
      | .error e => .error e
      | .ok (m₁, f₁) =>
        match runBillsTrace m₁ l₂ with
        | .error e => .error e
        | .ok (m₂, f₂) => .ok (m₂, f₁ ++ f₂) := by
  induction l₁ generalizing m with
  | nil =>
    cases h : runBillsTrace m l₂ with
    | error e => simp [runBillsTrace, h]
    | ok p => simp [runBillsTrace, h]
  | cons r t ih =>
    simp only [List.cons_append, runBillsTrace]
    cases h1 : addToBillsMeta m r with
    | error e => rfl
    | ok p =>
      obtain ⟨m', b⟩ := p
      simp only [List.append_eq, ih m']
      cases h2 : runBillsTrace m' t with
      | error e => rfl
      | ok q =>
        obtain ⟨m₁, f₁⟩ := q
        cases h3 : runBillsTrace m₁ l₂ with
        | error e => simp [h3]
        | ok s => simp [h3]

theorem runBillsTrace_append_ok (m : BillsMeta) (l₁ l₂ : List BillRecord)
    (m₁ m₂ : BillsMeta) (f₁ f₂ : List Bool)
    (h₁ : runBillsTrace m l₁ = .ok (m₁, f₁)) (h₂ : runBillsTrace m₁ l₂ = .ok (m₂, f₂)) :
    runBillsTrace m (l₁ ++ l₂) = .ok (m₂, f₁ ++ f₂) := by
  rw [runBillsTrace_append, h₁]
  show (match runBillsTrace m₁ l₂ with
      | .error e => (.error e : Except PyErr (BillsMeta × List Bool))
      | .ok (m₂, f₂) => .ok (m₂, f₁ ++ f₂)) = _
  rw [h₂]

theorem runBills_of_trace (l : List BillRecord) (m mf : BillsMeta) (fs : List Bool)
    (h : runBillsTrace m l = .ok (mf, fs)) : runBills m l = .ok mf := by
  induction l generalizing m fs with
  | nil =>
    simp only [runBillsTrace] at h
    cases h
    rfl
  | cons r t ih =>
    simp only [runBillsTrace] at h
    simp only [runBills]
    cases h1 : addToBillsMeta m r with
    | error e => rw [h1] at h; exact absurd h (by simp)
    | ok p =>
      obtain ⟨m', b⟩ := p
      rw [h1] at h
      have h' : (match runBillsTrace m' t with
          | .error e => (.error e : Except PyErr (BillsMeta × List Bool))
          | .ok (mfq, bs) => .ok (mfq, b :: bs)) =
          .ok (mf, fs) := h
      show runBills m' t = Except.ok mf
      cases htr : runBillsTrace m' t with
      | error e => rw [htr] at h'; exact absurd h' (by simp)
      | ok q =>
        obtain ⟨mf', fs'⟩ := q
        rw [htr] at h'
        have h2 : (Except.ok (mf', b :: fs') : Except PyErr (BillsMeta × List Bool)) =
            .ok (mf, fs) := h'
        cases h2
        exact ih m' fs' htr

theorem keyChar_toNat (i : Nat) : (keyChar i).val.toNat = 65 + i % 1000 := rfl

theorem keyChar_ne_hyphen (i : Nat) : keyChar i ≠ '-' := by
  intro h
  have h45 : ('-').val.toNat = 45 := rfl
  have hthis : (keyChar i).val.toNat = ('-').val.toNat := by rw [h]
  rw [keyChar_toNat, h45] at hthis
  omega

theorem keyChar_inj {i j : Nat} (hi : i < 1000) (hj : j < 1000)
    (h : keyChar i = keyChar j) : i = j := by
  have hthis : (keyChar i).val.toNat = (keyChar j).val.toNat := by rw [h]
  rw [keyChar_toNat, keyChar_toNat] at hthis
  rw [Nat.mod_eq_of_lt hi, Nat.mod_eq_of_lt hj] at hthis
  omega

theorem resolvedKey_dash_rec (c : Char) (h : c ≠ '-') :
    resolvedKey (recOfBillId ['-', c]) = some [c] := by
  have hsp : splitOnChar '-' ['-', c] = [[], [c]] := by
    simp [splitOnChar, h]
  simp [resolvedKey, getBillCongressTypeNumber, recOfBillId, hsp]

/-- A run over records with pairwise distinct single-character keys, none of
which is present in the starting mapping, inserts one fresh key per record:
the mapping grows by the number of records and the checkpoint flag of the
`j`-th record is set exactly when `m.length + j + 1` is a multiple of
`SAVE_ON_COUNT`. -/
theorem runBillsTrace_fresh (cs : List Char) : ∀ m : BillsMeta,
    (∀ c ∈ cs, c ≠ '-') → cs.Nodup → (∀ c ∈ cs, alookup m [c] = none) →
    ∃ mf, runBillsTrace m (cs.map (fun c => recOfBillId ['-', c])) =
        .ok (mf, (List.range cs.length).map
          (fun j => decide ((m.length + j + 1) % SAVE_ON_COUNT = 0))) ∧
      mf.length = m.length + cs.length := by
  induction cs with
  | nil =>
    intro m _ _ _
    exact ⟨m, rfl, by simp⟩
  | cons c cs' ih =>
    intro m hd hnd hm
    have hc : c ≠ '-' := hd c (List.mem_cons_self c cs')
    have hkey := resolvedKey_dash_rec c hc
    have hnone : alookup m [c] = none := hm c (List.mem_cons_self c cs')
    have hstep := addToBillsMeta_write m (recOfBillId ['-', c]) [c] hkey
    have hlen1 := setVal_length_of_none m [c] (billEntryOf (recOfBillId ['-', c])) hnone
    set m1 := setVal m [c] (billEntryOf (recOfBillId ['-', c])) with hm1
    have hm1none : ∀ c' ∈ cs', alookup m1 [c'] = none := by
      intro c' hc'
      rw [hm1, alookup_setVal]
      have hne : ([c'] : Str) ≠ [c] := by
        intro hh
        have : c' = c := by injection hh
        subst this
        exact (List.nodup_cons.mp hnd).1 hc'
      rw [if_neg hne]
      exact hm c' (List.mem_cons_of_mem c hc')
    obtain ⟨mf, htr, hlenf⟩ :=
      ih m1 (fun c' hc' => hd c' (List.mem_cons_of_mem c hc'))
        (List.nodup_cons.mp hnd).2 hm1none
    refine ⟨mf, ?_, ?_⟩
    · simp only [List.map_cons, runBillsTrace, hstep, ← hm1, htr]
      congr 1
      congr 1
      rw [hlen1]
      have hmap : (List.range (cs'.length + 1)).map
            (fun j => decide ((m.length + j + 1) % SAVE_ON_COUNT = 0)) =
          decide ((m.length + 1) % SAVE_ON_COUNT = 0) ::
            (List.range cs'.length).map
              (fun j => decide ((m.length + 1 + j + 1) % SAVE_ON_COUNT = 0)) := by
        rw [List.range_succ_eq_map, List.map_cons, List.map_map]
        congr 1
        apply List.map_congr_left
        intro j _
        have : m.length + (j + 1) + 1 = m.length + 1 + j + 1 := by omega
        simp only [Function.comp_apply, Nat.succ_eq_add_one, this]
      simp only [List.length_cons, hmap]
    · rw [hlenf, hlen1]
      simp [List.length_cons]
      omega

/-- The last entry resolving to a present single-character key is defined. -/
theorem lastEntry_isSome_of_mem (cs : List Char) (c : Char) (hc : c ∈ cs) (hcd : c ≠ '-') :
    (lastEntry (cs.map (fun c => recOfBillId ['-', c])) [c]).isSome := by
  induction cs with
  | nil => simp at hc
  | cons c' cs' ih =>
    simp only [List.map_cons, lastEntry]
    rcases List.mem_cons.mp hc with h | h
    · subst h
      rw [resolvedKey_dash_rec c hcd, if_pos rfl]
      cases lastEntry (cs'.map (fun c => recOfBillId ['-', c])) [c] <;> simp [oElse]
    · have := ih h
      cases hle : lastEntry (cs'.map (fun c => recOfBillId ['-', c])) [c] with
      | none => rw [hle] at this; simp at this
      | some v => simp [oElse]

/-- Counterexample to C6 as stated: over `saveCountRecs` — 1000 records with
distinct keys followed by a duplicate of the first — the 1001st record
checkpoints (its flag is `true`) even though it inserts no new distinct key:
the key count is 1000 both after the first 1000 records and after all 1001. -/
theorem claim6_counterexample :
    (runBillsTrace [] saveCountRecs).toOption.map
        (fun p => (p.1.length, p.2.length, p.2.getD 999 false, p.2.getD 1000 false)) =
      some (1000, 1001, true, true) ∧
    (runBills [] (saveCountRecs.take 1000)).toOption.map (fun m => m.length) =
      some 1000 := by
  have hcsl : ((List.range 1000).map keyChar).length = 1000 := by simp
  have hd : ∀ c ∈ (List.range 1000).map keyChar, c ≠ '-' := by
    intro c hc
    obtain ⟨i, _, rfl⟩ := List.mem_map.mp hc
    exact keyChar_ne_hyphen i
  have hnd : ((List.range 1000).map keyChar).Nodup := by
    refine List.Nodup.map_on ?_ (List.nodup_range 1000)
    intro i hi j hj hij
    exact keyChar_inj (List.mem_range.mp hi) (List.mem_range.mp hj) hij
  have hm0 : ∀ c ∈ (List.range 1000).map keyChar, alookup ([] : BillsMeta) [c] = none :=
    fun c _ => rfl
  obtain ⟨mf, htr, hlenf⟩ := runBillsTrace_fresh ((List.range 1000).map keyChar) [] hd hnd hm0
  have hmf1000 : mf.length = 1000 := by rw [hlenf, hcsl]; rfl
  have hpart : ((List.range 1000).map keyChar).map (fun c => recOfBillId ['-', c]) =
      (List.range 1000).map (fun i => recOfBillId ['-', keyChar i]) := by
    rw [List.map_map]
    rfl
  rw [hpart, hcsl] at htr
  have hrb : runBills [] ((List.range 1000).map (fun i => recOfBillId ['-', keyChar i])) =
      .ok mf := runBills_of_trace _ _ _ _ htr
  have hmem0 : keyChar 0 ∈ (List.range 1000).map keyChar :=
    List.mem_map_of_mem keyChar (List.mem_range.mpr (by omega))
  have hlast := lastEntry_isSome_of_mem ((List.range 1000).map keyChar) (keyChar 0) hmem0
    (keyChar_ne_hyphen 0)
  rw [hpart] at hlast
  have hlook : (alookup mf [keyChar 0]).isSome := by
    have hch := runBills_alookup _ [] mf [keyChar 0] hrb
    cases hle : lastEntry ((List.range 1000).map (fun i => recOfBillId ['-', keyChar i]))
        [keyChar 0] with
    | none => rw [hle] at hlast; simp at hlast
    | some v =>
      rw [hch, hle]
      rfl
  have hkeydup := resolvedKey_dash_rec (keyChar 0) (keyChar_ne_hyphen 0)
  have hstep := addToBillsMeta_write mf (recOfBillId ['-', keyChar 0]) [keyChar 0] hkeydup
  have hlen2 := setVal_length_of_some mf [keyChar 0]
    (billEntryOf (recOfBillId ['-', keyChar 0])) hlook
  have hflag : decide ((setVal mf [keyChar 0]
      (billEntryOf (recOfBillId ['-', keyChar 0]))).length % SAVE_ON_COUNT = 0) = true := by
    rw [hlen2, hmf1000]
    rfl
  have htr2 : runBillsTrace mf [recOfBillId ['-', keyChar 0]] =
      .ok (setVal mf [keyChar 0] (billEntryOf (recOfBillId ['-', keyChar 0])), [true]) := by
    simp only [runBillsTrace, hstep, hflag]
  have hfull : runBillsTrace [] saveCountRecs =
      .ok (setVal mf [keyChar 0] (billEntryOf (recOfBillId ['-', keyChar 0])),
        ((List.range 1000).map
          (fun j => decide ((List.length ([] : BillsMeta) + j + 1) % SAVE_ON_COUNT = 0))) ++
          [true]) := by
    show runBillsTrace []
        ((List.range 1000).map (fun i => recOfBillId ['-', keyChar i]) ++
          [recOfBillId ['-', keyChar 0]]) = _
    exact runBillsTrace_append_ok _ _ _ _ _ _ _ htr htr2
  constructor
  · rw [hfull]
    have e1 : (setVal mf [keyChar 0]
        (billEntryOf (recOfBillId ['-', keyChar 0]))).length = 1000 := by
      rw [hlen2, hmf1000]
    have hflagslen : ((List.range 1000).map
        (fun j => decide ((List.length ([] : BillsMeta) + j + 1) % SAVE_ON_COUNT = 0))).length =
        1000 := by simp
    have e2 : (((List.range 1000).map
        (fun j => decide ((List.length ([] : BillsMeta) + j + 1) % SAVE_ON_COUNT = 0))) ++
        [true]).length = 1001 := by
      rw [List.length_append, hflagslen]
      rfl
    have e3 : (((List.range 1000).map
        (fun j => decide ((List.length ([] : BillsMeta) + j + 1) % SAVE_ON_COUNT = 0))) ++
        [true]).getD 999 false = true := by
      rw [List.getD_append _ _ _ _ (by rw [hflagslen]; omega)]
      rw [List.getD_eq_getElem?_getD, List.getElem?_map,
        List.getElem?_range (show (999 : Nat) < 1000 by omega)]
      rfl
    have e4 : (((List.range 1000).map
        (fun j => decide ((List.length ([] : BillsMeta) + j + 1) % SAVE_ON_COUNT = 0))) ++
        [true]).getD 1000 false = true := by
      rw [List.getD_append_right _ _ _ _ (by rw [hflagslen])]
      rw [hflagslen]
      simp
    show some
        ((setVal mf [keyChar 0] (billEntryOf (recOfBillId ['-', keyChar 0]))).length,
          (((List.range 1000).map
            (fun j => decide ((List.length ([] : BillsMeta) + j + 1) % SAVE_ON_COUNT = 0))) ++
            [true]).length,
          (((List.range 1000).map
            (fun j => decide ((List.length ([] : BillsMeta) + j + 1) % SAVE_ON_COUNT = 0))) ++
            [true]).getD 999 false,
          (((List.range 1000).map
            (fun j => decide ((List.length ([] : BillsMeta) + j + 1) % SAVE_ON_COUNT = 0))) ++
            [true]).getD 1000 false) =
        some (1000, 1001, true, true)
    rw [e1, e2, e3, e4]
  · have htake : saveCountRecs.take 1000 =
        (List.range 1000).map (fun i => recOfBillId ['-', keyChar i]) := by
      show ((List.range 1000).map (fun i => recOfBillId ['-', keyChar i]) ++
          [recOfBillId ['-', keyChar 0]]).take 1000 = _
      have hl : ((List.range 1000).map (fun i => recOfBillId ['-', keyChar i])).length =
          1000 := by simp
      exact List.take_left' hl
    rw [htake, hrb]
    simp [Except.toOption, hmf1000]

/-! Claims about the identity resolver (C1, C2). -/

theorem filter_map_filter {α β : Type} (l : List α) (q : α → Bool) (f : α → β)
    (p : β → Bool) :
    ((l.filter q).map f).filter p = (l.filter (fun x => q x && p (f x))).map f := by
  induction l with
  | nil => rfl
  | cons x t ih =>
    by_cases hq : q x
    · by_cases hp : p (f x) <;> simp [hq, hp, ih]
    · simp [hq, ih]

/-- The code's reason test (`any(x in cleanReasons(...) for x in
IDENTICAL_REASONS)`) holds exactly when the reason list intersects the
vocabulary. -/
theorem reason_any_iff (rs : List Str) :
    IDENTICAL_REASONS.any (fun x => decide (x ∈ cleanReasons rs)) = true ↔
      rs.inter IDENTICAL_REASONS ≠ [] := by
  constructor
  · intro h hnil
    obtain ⟨x, hxv, hxr⟩ := List.any_eq_true.mp h
    have hxr' : x ∈ rs := by simpa [cleanReasons] using hxr
    have : x ∈ rs.inter IDENTICAL_REASONS := List.mem_inter_iff.mpr ⟨hxr', hxv⟩
    rw [hnil] at this
    simp at this
  · intro h
    obtain ⟨x, hx⟩ := List.exists_mem_of_ne_nil _ h
    obtain ⟨hxr, hxv⟩ := List.mem_inter_iff.mp hx
    exact List.any_eq_true.mpr ⟨x, hxv, by simpa [cleanReasons] using hxr⟩

/-- The code's per-match test conjoined with the truthy-key test equals the
claim's characterization. -/
theorem isIdenticalMatch_key_eq_spec (cs : ℚ) (b : SimMatch) :
    (isIdenticalMatch cs b && decide (b.bill_congress_type_number.getD [] ≠ [])) =
      decide (identicalSpecPred cs b) := by
  rcases hany : IDENTICAL_REASONS.any (fun x => decide (x ∈ cleanReasons b.reason)) with _ | _
  · have hno : ¬(b.reason.inter IDENTICAL_REASONS ≠ []) := by
      intro hcon
      rw [(reason_any_iff b.reason).mpr hcon] at hany
      cases hany
    simp [isIdenticalMatch, identicalSpecPred, hany, hno, Bool.decide_and, Bool.and_comm]
  · have hyes : b.reason.inter IDENTICAL_REASONS ≠ [] := (reason_any_iff b.reason).mp hany
    simp [isIdenticalMatch, identicalSpecPred, hany, hyes, Bool.decide_and, Bool.and_comm]

/-- C1: `get_identical_bill_numbers` returns exactly (up to the external
congress-aware reordering, a permutation) the bill numbers of the matches
satisfying the claim's characterization: non-empty key, and reason
intersection with the vocabulary or — only when the current score is
positive — relative score distance below the threshold. -/
theorem claim1_identical_matches (sort_bills : List Str → List Str)
    (similar_bills : List SimMatch) (current_bill_score : ℚ)
    (hsort : ∀ l, List.Perm (sort_bills l) l) :
    List.Perm (get_identical_bill_numbers sort_bills similar_bills current_bill_score)
      ((similar_bills.filter (fun b => decide (identicalSpecPred current_bill_score b))).map
        (fun b => b.bill_congress_type_number.getD [])) := by
  unfold get_identical_bill_numbers
  refine (hsort _).trans ?_
  rw [filter_map_filter]
  have hfun : (fun x => isIdenticalMatch current_bill_score x &&
      decide (x.bill_congress_type_number.getD [] ≠ [])) =
      (fun b => decide (identicalSpecPred current_bill_score b)) :=
    funext (isIdenticalMatch_key_eq_spec current_bill_score)
  rw [hfun]

/-- Witness for C1 at the spec's example: with current score `0.9`,
`116hr300` is included (reason match) and `116hr301` excluded. -/
theorem claim1_identical_matches_witness :
    List.Perm (get_identical_bill_numbers (fun l => l) exampleMatches (9 / 10))
      ((exampleMatches.filter (fun b => decide (identicalSpecPred (9 / 10) b))).map
        (fun b => b.bill_congress_type_number.getD [])) ∧
    get_identical_bill_numbers (fun l => l) exampleMatches (9 / 10) =
      ["116hr300".toList] :=
  ⟨claim1_identical_matches (fun l => l) exampleMatches (9 / 10) (fun l => List.Perm.refl l),
    by decide!⟩

theorem filterMO_eq_filter {α : Type} (p : α → Option Bool) (q : α → Bool) (l : List α)
    (h : ∀ x ∈ l, p x = some (q x)) : filterMO p l = some (l.filter q) := by
  induction l with
  | nil => rfl
  | cons x t ih =>
    have hx := h x (List.mem_cons_self x t)
    have ht := ih (fun y hy => h y (List.mem_cons_of_mem x hy))
    simp only [filterMO, hx, ht, Option.map_some]
    by_cases hq : q x <;> simp [hq]

/-- With a non-positive current score the safe per-match test returns exactly
the reason-intersection verdict, evaluating no division. -/
theorem isIdenticalMatchSafe_nonpos (cs : ℚ) (b : SimMatch) (hcs : cs ≤ 0) :
    isIdenticalMatchSafe cs b =
      some (decide (b.reason.inter IDENTICAL_REASONS ≠ [])) := by
  unfold isIdenticalMatchSafe
  rcases hany : IDENTICAL_REASONS.any (fun x => decide (x ∈ cleanReasons b.reason)) with _ | _
  · have hno : ¬(b.reason.inter IDENTICAL_REASONS ≠ []) := by
      intro hcon
      rw [(reason_any_iff b.reason).mpr hcon] at hany
      cases hany
    have hlt : ¬(0 < cs) := not_lt.mpr hcs
    simp [hany, hlt, hno]
  · have hyes : b.reason.inter IDENTICAL_REASONS ≠ [] := (reason_any_iff b.reason).mp hany
    simp [hany, hyes]

/-- With a non-positive current score the code's per-match test returns
exactly the reason-intersection verdict. -/
theorem isIdenticalMatch_nonpos (cs : ℚ) (b : SimMatch) (hcs : cs ≤ 0) :
    isIdenticalMatch cs b = decide (b.reason.inter IDENTICAL_REASONS ≠ []) := by
  unfold isIdenticalMatch
  have hlt : ¬(0 < cs) := not_lt.mpr hcs
  rcases hany : IDENTICAL_REASONS.any (fun x => decide (x ∈ cleanReasons b.reason)) with _ | _
  · have hno : ¬(b.reason.inter IDENTICAL_REASONS ≠ []) := by
      intro hcon
      rw [(reason_any_iff b.reason).mpr hcon] at hany
      cases hany
    simp [hany, hlt, hno]
  · have hyes : b.reason.inter IDENTICAL_REASONS ≠ [] := (reason_any_iff b.reason).mp hany
    simp [hany, hyes]

/-- C2: when the current score is not strictly positive (in particular when
it is 0), `get_identical_bill_numbers` never evaluates the score-proximity
division — the partial-division semantics returns `some` — and a match is
included exactly when its reason list intersects the identical-reason
vocabulary. -/
theorem claim2_no_division_by_zero (sort_bills : List Str → List Str)
    (similar_bills : List SimMatch) (current_bill_score : ℚ)
    (hcs : current_bill_score ≤ 0) :
    get_identical_bill_numbers_safe sort_bills similar_bills current_bill_score =
      some (sort_bills
        (((similar_bills.filter
            (fun b => decide (b.reason.inter IDENTICAL_REASONS ≠ []))).map
          (fun bill => bill.bill_congress_type_number.getD [])).filter
            (fun billnumber => billnumber ≠ []))) ∧
    get_identical_bill_numbers sort_bills similar_bills current_bill_score =
      sort_bills
        (((similar_bills.filter
            (fun b => decide (b.reason.inter IDENTICAL_REASONS ≠ []))).map
          (fun bill => bill.bill_congress_type_number.getD [])).filter
            (fun billnumber => billnumber ≠ [])) := by
  constructor
  · unfold get_identical_bill_numbers_safe
    rw [filterMO_eq_filter _ (fun b => decide (b.reason.inter IDENTICAL_REASONS ≠ []))
      similar_bills (fun b _ => isIdenticalMatchSafe_nonpos current_bill_score b hcs)]
    rfl
  · unfold get_identical_bill_numbers
    have hfun : isIdenticalMatch current_bill_score =
        (fun b => decide (b.reason.inter IDENTICAL_REASONS ≠ [])) :=
      funext (fun b => isIdenticalMatch_nonpos current_bill_score b hcs)
    rw [hfun]

/-- Witness for C2 at current score 0 over the spec's example matches. -/
theorem claim2_no_division_by_zero_witness :
    get_identical_bill_numbers_safe (fun l => l) exampleMatches 0 =
      some (((exampleMatches.filter
          (fun b => decide (b.reason.inter IDENTICAL_REASONS ≠ []))).map
        (fun bill => bill.bill_congress_type_number.getD [])).filter
          (fun billnumber => billnumber ≠ [])) ∧
    get_identical_bill_numbers (fun l => l) exampleMatches 0 =
      ((exampleMatches.filter
          (fun b => decide (b.reason.inter IDENTICAL_REASONS ≠ []))).map
        (fun bill => bill.bill_congress_type_number.getD [])).filter
          (fun billnumber => billnumber ≠ []) :=
  claim2_no_division_by_zero (fun l => l) exampleMatches 0 (le_refl 0)

/-! Claims about the cosponsor roster merger (C3, C10). -/

theorem alookup_mem {α β : Type} [DecidableEq α] (s : List (α × β)) (k : α) (v : β)
    (h : alookup s k = some v) : (k, v) ∈ s := by
  induction s with
  | nil => simp [alookup] at h
  | cons p t ih =>
    obtain ⟨pk, pv⟩ := p
    by_cases hk : k = pk
    · subst hk
      simp only [alookup, if_pos rfl] at h
      cases h
      exact List.mem_cons_self _ _
    · simp only [alookup, if_neg hk] at h
      exact List.mem_cons_of_mem _ (ih h)

theorem mem_setVal {α β : Type} [DecidableEq α] (s : List (α × β)) (k : α) (v : β)
    (p : α × β) (h : p ∈ setVal s k v) : p = (k, v) ∨ p ∈ s := by
  induction s with
  | nil => simpa [setVal] using h
  | cons q t ih =>
    obtain ⟨qk, qv⟩ := q
    by_cases hk : qk = k
    · subst hk
      simp only [setVal, if_pos rfl] at h
      rcases List.mem_cons.mp h with h | h
      · exact Or.inl h
      · exact Or.inr (List.mem_cons_of_mem _ h)
    · simp only [setVal, if_neg hk] at h
      rcases List.mem_cons.mp h with h | h
      · exact Or.inr (h ▸ List.mem_cons_self _ _)
      · rcases ih h with h | h
        · exact Or.inl h
        · exact Or.inr (List.mem_cons_of_mem _ h)

theorem keys_setVal_of_isSome {α β : Type} [DecidableEq α] (s : List (α × β)) (k : α) (v : β)
    (h : (alookup s k).isSome) : (setVal s k v).map Prod.fst = s.map Prod.fst := by
  induction s with
  | nil => simp [alookup] at h
  | cons q t ih =>
    obtain ⟨qk, qv⟩ := q
    by_cases hk : qk = k
    · subst hk
      simp [setVal]
    · have hk' : k ≠ qk := fun hh => hk hh.symm
      simp only [alookup, if_neg hk'] at h
      simp [setVal, if_neg hk, ih h]

theorem alookup_eq_none_iff {α β : Type} [DecidableEq α] (s : List (α × β)) (k : α) :
    alookup s k = none ↔ k ∉ s.map Prod.fst := by
  induction s with
  | nil => simp [alookup]
  | cons q t ih =>
    obtain ⟨qk, qv⟩ := q
    by_cases hk : k = qk
    · subst hk
      simp [alookup]
    · simp [alookup, if_neg hk, ih, hk]

theorem alookup_append {α β : Type} [DecidableEq α] (s₁ s₂ : List (α × β)) (k : α) :
    alookup (s₁ ++ s₂) k = oElse (alookup s₁ k) (alookup s₂ k) := by
  induction s₁ with
  | nil => simp [alookup, oElse]
  | cons q t ih =>
    obtain ⟨qk, qv⟩ := q
    by_cases hk : k = qk
    · subst hk
      simp [alookup, oElse]
    · simp [alookup, if_neg hk, ih]

/-- Filter of the values of a well-formed dedup state by an id: the unique
entry stored under the id, when present. -/
theorem values_filter_of_state (s : List (Str × MergedCosponsor)) (id : Str)
    (hids : ∀ p ∈ s, p.2.row.bioguide_id = p.1) (hnd : (s.map Prod.fst).Nodup) :
    (s.map Prod.snd).filter (fun m => m.row.bioguide_id == id) =
      match alookup s id with
      | some m => [m]
      | none => [] := by
  induction s with
  | nil => rfl
  | cons p t ih =>
    obtain ⟨pk, pv⟩ := p
    have hpv : pv.row.bioguide_id = pk := hids (pk, pv) (List.mem_cons_self _ _)
    have hnd2 : (pk :: t.map Prod.fst).Nodup := by
      rw [List.map_cons] at hnd
      exact hnd
    have hndt : (t.map Prod.fst).Nodup := (List.nodup_cons.mp hnd2).2
    have hpk_not : pk ∉ t.map Prod.fst := (List.nodup_cons.mp hnd2).1
    have ihapp := ih (fun q hq => hids q (List.mem_cons_of_mem _ hq)) hndt
    by_cases hk : id = pk
    · subst hk
      have hfil : (t.map Prod.snd).filter (fun m => m.row.bioguide_id == id) = [] := by
        rw [ihapp, (alookup_eq_none_iff t id).mpr hpk_not]
      simp only [List.map_cons, List.filter_cons, hpv, beq_self_eq_true, if_pos rfl,
        alookup, hfil]
      simp
    · have hne : (pv.row.bioguide_id == id) = false := by
        rw [hpv]
        simp [beq_eq_false_iff_ne]
        exact fun hh => hk hh.symm
      simp only [List.map_cons, List.filter_cons, hne, alookup,
        if_neg hk, ihapp]
      simp

theorem mergeStep_some (committees_map : List (Option Str × Option Str))
    (bill_dict : List (Nat × Str)) (s : List (Str × MergedCosponsor)) (row : CosRow)
    (m : MergedCosponsor) (h : alookup s row.bioguide_id = some m) :
    mergeStep committees_map bill_dict s row =
      setVal s row.bioguide_id
        { m with bill_congress_type_numbers :=
            m.bill_congress_type_numbers ++ [bctnOf bill_dict row] } := by
  unfold mergeStep
  rw [h]

theorem mergeStep_none (committees_map : List (Option Str × Option Str))
    (bill_dict : List (Nat × Str)) (s : List (Str × MergedCosponsor)) (row : CosRow)
    (h : alookup s row.bioguide_id = none) :
    mergeStep committees_map bill_dict s row =
      s ++ [(row.bioguide_id, mkMerged committees_map bill_dict row)] := by
  unfold mergeStep
  rw [h]

/-- Characterization of the dedup fold of `get_cosponsors_for_same_bills`
from an arbitrary well-formed state: the output entries bearing a given
`bioguide_id` are exactly one entry — the state's entry with all matching
bill numbers appended, or, for a fresh id, the first matching row's merged
entry collecting the bill numbers of every matching row. -/
theorem mergeFold_filter (committees_map : List (Option Str × Option Str))
    (bill_dict : List (Nat × Str)) (rows : List CosRow) :
    ∀ (s : List (Str × MergedCosponsor)) (gid : Str),
    (∀ p ∈ s, p.2.row.bioguide_id = p.1) → ((s.map Prod.fst).Nodup) →
    ((rows.foldl (mergeStep committees_map bill_dict) s).map Prod.snd).filter
        (fun m => m.row.bioguide_id == gid) =
      match alookup s gid with
      | some m =>
        [{ m with bill_congress_type_numbers := m.bill_congress_type_numbers ++
            (rows.filter (fun r => r.bioguide_id == gid)).map (bctnOf bill_dict) }]
      | none =>
        match rows.filter (fun r => r.bioguide_id == gid) with
        | [] => []
        | r :: rest =>
          [{ mkMerged committees_map bill_dict r with
              bill_congress_type_numbers := ((r :: rest).map (bctnOf bill_dict)) }] := by
  induction rows with
  | nil =>
    intro s gid hids hnd
    simp only [List.foldl_nil, List.filter_nil, List.map_nil, List.append_nil]
    rw [values_filter_of_state s gid hids hnd]
  | cons r t ih =>
    intro s gid hids hnd
    simp only [List.foldl_cons]
    cases hlook : alookup s r.bioguide_id with
    | some m =>
      have hmmem : (r.bioguide_id, m) ∈ s := alookup_mem s _ m hlook
      have hmid : m.row.bioguide_id = r.bioguide_id := hids _ hmmem
      have hids' : ∀ p ∈ setVal s r.bioguide_id
          { m with bill_congress_type_numbers :=
              m.bill_congress_type_numbers ++ [bctnOf bill_dict r] },
          p.2.row.bioguide_id = p.1 := by
        intro p hp
        rcases mem_setVal _ _ _ _ hp with h | h
        · subst h
          exact hmid
        · exact hids p h
      have hnd' : ((setVal s r.bioguide_id
          { m with bill_congress_type_numbers :=
              m.bill_congress_type_numbers ++ [bctnOf bill_dict r] }).map Prod.fst).Nodup := by
        rw [keys_setVal_of_isSome s _ _ (by rw [hlook]; rfl)]
        exact hnd
      rw [mergeStep_some committees_map bill_dict s r m hlook]
      rw [ih _ gid hids' hnd']
      rw [alookup_setVal]
      by_cases hid : gid = r.bioguide_id
      · rw [if_pos hid, hid, hlook]
        have hrfil : (r :: t).filter (fun q => q.bioguide_id == r.bioguide_id) =
            r :: t.filter (fun q => q.bioguide_id == r.bioguide_id) := by
          simp [List.filter_cons]
        rw [hrfil]
        simp [List.append_assoc]
      · rw [if_neg hid]
        have hbfalse : (r.bioguide_id == gid) = false := by
          simp only [beq_eq_false_iff_ne, ne_eq]
          exact fun hh => hid hh.symm
        have hrfil : (r :: t).filter (fun q => q.bioguide_id == gid) =
            t.filter (fun q => q.bioguide_id == gid) := by
          simp [List.filter_cons, hbfalse]
        rw [hrfil]
    | none =>
      have hfresh : r.bioguide_id ∉ s.map Prod.fst := (alookup_eq_none_iff s _).mp hlook
      have hids' : ∀ p ∈ s ++ [(r.bioguide_id, mkMerged committees_map bill_dict r)],
          p.2.row.bioguide_id = p.1 := by
        intro p hp
        rcases List.mem_append.mp hp with h | h
        · exact hids p h
        · simp only [List.mem_singleton] at h
          subst h
          rfl
      have hnd' : (((s ++ [(r.bioguide_id, mkMerged committees_map bill_dict r)]).map
          Prod.fst)).Nodup := by
        rw [List.map_append, List.nodup_append]
        refine ⟨hnd, by simp, ?_⟩
        intro a ha
        simp only [List.map_cons, List.map_nil, List.mem_singleton]
        intro hb
        subst hb
        exact hfresh ha
      rw [mergeStep_none committees_map bill_dict s r hlook]
      rw [ih _ gid hids' hnd']
      rw [alookup_append]
      by_cases hid : gid = r.bioguide_id
      · have halook1 : alookup [(r.bioguide_id, mkMerged committees_map bill_dict r)] gid =
            some (mkMerged committees_map bill_dict r) := by
          simp [alookup, hid]
        rw [halook1, hid, hlook, oElse_none]
        have hrfil : (r :: t).filter (fun q => q.bioguide_id == r.bioguide_id) =
            r :: t.filter (fun q => q.bioguide_id == r.bioguide_id) := by
          simp [List.filter_cons]
        rw [hrfil]
        simp [mkMerged]
      · have hne2 : alookup [(r.bioguide_id, mkMerged committees_map bill_dict r)] gid =
            none := by
          simp [alookup, fun hh : gid = r.bioguide_id => hid hh]
        rw [hne2]
        have hbfalse : (r.bioguide_id == gid) = false := by
          simp only [beq_eq_false_iff_ne, ne_eq]
          exact fun hh => hid hh.symm
        have hrfil : (r :: t).filter (fun q => q.bioguide_id == gid) =
            t.filter (fun q => q.bioguide_id == gid) := by
          simp [List.filter_cons, hbfalse]
        rw [hrfil]
        cases alookup s gid with
        | none => rfl
        | some m => simp [oElse]

/-- C3: `get_cosponsors_for_same_bills` deduplicates by `bioguide_id` — the
output has exactly one entry for an id occurring among the fetched rows (none
otherwise), and that entry's `bill_congress_type_numbers` has length equal to
the number of fetched rows bearing the id (so two bills sharing one cosponsor
give one entry with a two-element list). -/
theorem claim3_merge_dedup (committees_map : List (Option Str × Option Str))
    (bill_dict : List (Nat × Str)) (rows : List CosRow) (gid : Str) :
    ((get_cosponsors_for_same_bills committees_map bill_dict rows).filter
        (fun m => m.row.bioguide_id == gid)).map
      (fun m => m.bill_congress_type_numbers.length) =
      (if 0 < rows.countP (fun r => r.bioguide_id == gid) then
        [rows.countP (fun r => r.bioguide_id == gid)] else []) := by
  unfold get_cosponsors_for_same_bills
  rw [mergeFold_filter committees_map bill_dict rows [] gid (by simp) (by simp)]
  rw [List.countP_eq_length_filter]
  cases hf : rows.filter (fun r => r.bioguide_id == gid) with
  | nil => simp [alookup]
  | cons r rest => simp [alookup, mkMerged]

theorem find?_eq_head_filter {α : Type} (p : α → Bool) (l : List α) (r : α)
    (h : l.find? p = some r) : ∃ rest, l.filter p = r :: rest := by
  induction l with
  | nil => simp [List.find?] at h
  | cons x t ih =>
    by_cases hx : p x
    · rw [List.find?_cons_of_pos _ hx] at h
      cases h
      exact ⟨t.filter p, by simp [List.filter_cons, hx]⟩
    · rw [List.find?_cons_of_neg _ hx] at h
      obtain ⟨rest, hrest⟩ := ih h
      exact ⟨rest, by simp [List.filter_cons, hx, hrest]⟩

/-- C10: in `get_cosponsors_for_same_bills`, the merged entry for a
`bioguide_id` is determined by the first fetched row bearing it — its `row`
payload (`party`, `state`, `name_full_official`, `leadership`, `committees`)
and the derived `committees_named` and `ranks` come from that first row, while
`bill_congress_type_numbers` collects the bill numbers of every row bearing
the id, in fetch order. -/
theorem claim10_first_row_wins (committees_map : List (Option Str × Option Str))
    (bill_dict : List (Nat × Str)) (rows : List CosRow) (gid : Str) (r : CosRow)
    (hfind : rows.find? (fun q => q.bioguide_id == gid) = some r) :
    (get_cosponsors_for_same_bills committees_map bill_dict rows).filter
        (fun m => m.row.bioguide_id == gid) =
      [{ row := r,
         bill_congress_type_numbers :=
           (rows.filter (fun q => q.bioguide_id == gid)).map (bctnOf bill_dict),
         committees_named := committeesNamedOf committees_map r,
         ranks := ranksOf committees_map r }] := by
  unfold get_cosponsors_for_same_bills
  rw [mergeFold_filter committees_map bill_dict rows [] gid (by simp) (by simp)]
  obtain ⟨rest, hrest⟩ := find?_eq_head_filter _ rows r hfind
  rw [hrest]
  simp [alookup, mkMerged]

/-- Witness for C10: `X` cosponsors bills 1 and 2 (rows `rowA` then `rowB`
with different payloads); the merged entry keeps `rowA`'s payload and collects
both bill numbers. -/
theorem claim10_first_row_wins_witness :
    (get_cosponsors_for_same_bills [] exampleBillDict exampleRows).filter
        (fun m => m.row.bioguide_id == "X".toList) =
      [{ row := rowA,
         bill_congress_type_numbers :=
           (exampleRows.filter (fun q => q.bioguide_id == "X".toList)).map
             (bctnOf exampleBillDict),
         committees_named := committeesNamedOf [] rowA,
         ranks := ranksOf [] rowA }] :=
  claim10_first_row_wins [] exampleBillDict exampleRows "X".toList rowA (by rfl)

/-! Claims about the cosponsor display ordering (C8). -/

theorem insertSorted_length {α : Type} (le : α → α → Bool) (x : α) (l : List α) :
    (insertSorted le x l).length = l.length + 1 := by
  induction l with
  | nil => rfl
  | cons y t ih =>
    unfold insertSorted
    by_cases h : le y x <;> simp [h, ih]

theorem stableSortBy_length {α : Type} (le : α → α → Bool) (l : List α) :
    (stableSortBy le l).length = l.length := by
  suffices h : ∀ acc : List α,
      (l.foldl (fun a x => insertSorted le x a) acc).length = acc.length + l.length by
    simpa using h []
  induction l with
  | nil => simp
  | cons x t ih =>
    intro acc
    simp only [List.foldl_cons, ih, insertSorted_length, List.length_cons]
    omega

theorem filter_split_length {α : Type} (l : List α) (p : α → Bool) :
    (l.filter p).length + (l.filter (fun x => !p x)).length = l.length := by
  induction l with
  | nil => rfl
  | cons x t ih =>
    by_cases h : p x <;> simp [List.filter_cons, h] <;> omega

/-- The partition phase keeps the head at index 0 and permutes the tail:
its length is preserved. -/
theorem partitionTail_head_length (x : CoEntry) (l : List CoEntry) :
    (partitionTail (x :: l)).head? = some x ∧
    (partitionTail (x :: l)).length = l.length + 1 := by
  unfold partitionTail
  simp only [List.drop_succ_cons, List.drop_zero, List.take_succ_cons, List.take_zero]
  constructor
  · rfl
  · simp only [List.length_append, List.length_cons, List.length_nil,
      stableSortBy_length]
    have hisNone : (fun c : CoEntry => c.rank.isNone) =
        (fun c : CoEntry => !c.rank.isSome) := by
      funext c
      cases c.rank <;> rfl
    rw [hisNone]
    have h1 := filter_split_length (l.filter (fun c => c.original_cosponsor))
      (fun c => c.rank.isSome)
    have h2 := filter_split_length (l.filter (fun c => !c.original_cosponsor))
      (fun c => c.rank.isSome)
    have h3 := filter_split_length l (fun c => c.original_cosponsor)
    omega

/-- C8 (amended): provided the sponsor's name is non-empty, the sponsor
occupies index 0 of `get_cosponsors_dict`'s result regardless of any rank
value: when no name-sorted cosponsor bears the sponsor's name, the (enriched)
sponsor entry is inserted at the front and the result is one longer than the
cosponsor list; when one does, that first matching entry is moved to the
front instead of inserting a separate sponsor entry, and the result has
exactly the cosponsor list's length. (The original claim omitted the
non-empty-name proviso; the counterexample shows an empty-named sponsor is
not placed at index 0.) -/
theorem claim8_sponsor_first (cosponsors_dict : List CoEntry) (sponsor0 : CoEntry)
    (enrich : CoEntry → CoEntry) (hname : sponsor0.name ≠ []) :
    (match (stableSortBy nameLe cosponsors_dict).filter
        (fun c => c.name == sponsor0.name) with
     | [] =>
       (get_cosponsors_dict cosponsors_dict sponsor0 enrich).head? =
           some (enrich { sponsor0 with sponsor := true }) ∧
       (get_cosponsors_dict cosponsors_dict sponsor0 enrich).length =
           cosponsors_dict.length + 1
     | s :: _ =>
       (get_cosponsors_dict cosponsors_dict sponsor0 enrich).head? = some (enrich s) ∧
       (get_cosponsors_dict cosponsors_dict sponsor0 enrich).length =
           cosponsors_dict.length) := by
  have hadj : sponsorAdjusted cosponsors_dict sponsor0 =
      match (stableSortBy nameLe cosponsors_dict).filter
          (fun c => c.name == sponsor0.name) with
      | [] => { sponsor0 with sponsor := true } :: stableSortBy nameLe cosponsors_dict
      | s :: _ => s :: (stableSortBy nameLe cosponsors_dict).erase s := by
    unfold sponsorAdjusted
    rw [if_pos hname]
  cases hfil : (stableSortBy nameLe cosponsors_dict).filter
      (fun c => c.name == sponsor0.name) with
  | nil =>
    rw [hfil] at hadj
    unfold get_cosponsors_dict
    rw [hadj, List.map_cons]
    obtain ⟨hhead, hlen⟩ := partitionTail_head_length
      (enrich { sponsor0 with sponsor := true })
      ((stableSortBy nameLe cosponsors_dict).map enrich)
    refine ⟨hhead, ?_⟩
    rw [hlen, List.length_map, stableSortBy_length]
  | cons s rest =>
    rw [hfil] at hadj
    unfold get_cosponsors_dict
    rw [hadj, List.map_cons]
    obtain ⟨hhead, hlen⟩ := partitionTail_head_length (enrich s)
      (((stableSortBy nameLe cosponsors_dict).erase s).map enrich)
    have hsmem : s ∈ stableSortBy nameLe cosponsors_dict :=
      List.mem_of_mem_filter (hfil ▸ List.mem_cons_self s rest)
    have hpos : 0 < (stableSortBy nameLe cosponsors_dict).length :=
      List.length_pos_of_mem hsmem
    refine ⟨hhead, ?_⟩
    rw [hlen, List.length_map, List.length_erase_of_mem hsmem, stableSortBy_length]
    rw [stableSortBy_length] at hpos
    omega

/-- Witness for C8: a sponsor named `a` over an empty cosponsor list is
inserted at index 0 with the sponsor flag set, yielding a one-entry result. -/
theorem claim8_sponsor_first_witness :
    (get_cosponsors_dict [] spA (fun c => c)).head? =
      some ({ spA with sponsor := true }) ∧
    (get_cosponsors_dict [] spA (fun c => c)).length = 1 := by
  have h := claim8_sponsor_first [] spA (fun c => c) (by decide)
  simpa using h

/-- Counterexample to C8 as stated: with an empty-named sponsor the code
inserts nothing — the result is just the lone cosponsor `z`, whose name
differs from the sponsor's and whose sponsor flag is false, so the sponsor is
not at index 0 (it is absent altogether). -/
theorem claim8_counterexample :
    get_cosponsors_dict [zEntry] spEmptyName (fun c => c) = [zEntry] ∧
    zEntry.name ≠ spEmptyName.name ∧ zEntry.sponsor = false := by
  refine ⟨rfl, by decide, rfl⟩
